import Mathlib

/-!
Verification development for the `msh` shell (Rust sources under `src/`).

Shallow embedding conventions:
* Rust `u8` bytes are `Nat` values (all inputs of interest are below 256;
  no arithmetic overflows byte values anywhere in the embedded code).
* `OsString` / `Vec<u8>` byte strings are `List Nat`.
* External collaborators (the OS and libc: `getpwnam`, `chdir`,
  `canonicalize`, `fork` pid allocation, `execve`, `waitpid` event
  delivery) are parameters of the embedded functions.
* Rust panics (`expect`/`unwrap` failures, `assert!`) are modelled as a
  distinguished failure value (`Option.none` or a dedicated error
  constructor), never silently ignored.
* The lexer and parser are iterators/recursive descent in Rust; they are
  embedded as fuel-indexed total functions.  Out of fuel is a
  distinguished error; all concrete runs use generous fuel.
* Line-number bookkeeping of the lexer and the exact texts of error
  messages are omitted: tokens are their kinds, errors are constructors.
  Neither influences which tokens are produced nor success vs failure.
-/

namespace Msh

deriving instance DecidableEq for Except

/-- Bytes are natural numbers (Rust `u8` values). -/
abbrev Byte := Nat

/-- Rust `u8::is_ascii_whitespace`: space, horizontal tab, newline,
form feed, carriage return. -/
def isAsciiWhitespace (b : Byte) : Bool :=
  b == 32 || b == 9 || b == 10 || b == 12 || b == 13

/-- `lexer.rs is_line_terminator`: newline or `;`. -/
def isLineTerminator (b : Byte) : Bool :=
  b == 10 || b == 59

/-- Rust `u8::is_ascii_alphabetic`. -/
def isAsciiAlphabetic (b : Byte) : Bool :=
  (65 ≤ b && b ≤ 90) || (97 ≤ b && b ≤ 122)

/-- Rust `u8::is_ascii_digit`. -/
def isAsciiDigit (b : Byte) : Bool :=
  48 ≤ b && b ≤ 57

/-- `word.rs is_valid_first_byte`: alphabetic or `_` (95). -/
def isValidFirstByte (b : Byte) : Bool :=
  isAsciiAlphabetic b || b == 95

/-- `word.rs is_valid_name_byte`: first-byte class or digit. -/
def isValidNameByte (b : Byte) : Bool :=
  isValidFirstByte b || isAsciiDigit b

/-- `word.rs is_valid_name`: non-empty, valid first byte, valid rest. -/
def isValidName (input : List Byte) : Bool :=
  match input with
  | [] => false
  | b :: rest => isValidFirstByte b && rest.all isValidNameByte

/-- `word.rs Quote`: the quoting tag of a word. -/
inductive Quote where
  | single
  | double
deriving DecidableEq, Repr

/-- `word.rs Word`: byte content plus optional quote tag. -/
structure Word where
  value : List Byte
  quote : Option Quote
deriving DecidableEq, Repr

/-- `Word::unquoted`. -/
def Word.unquoted (buf : List Byte) : Word := ⟨buf, none⟩

/-- `redirect.rs WriteMode`. -/
inductive WriteMode where
  | truncate
  | append
deriving DecidableEq, Repr

/-- `redirect.rs Redirect<P>`: the typed description of one redirection. -/
inductive Redirect (P : Type) where
  | inFile (path : P)
  | outErr
  | outFile (path : P) (mode : WriteMode)
  | errOut
  | errFile (path : P) (mode : WriteMode)
deriving DecidableEq, Repr

/-- `lexer.rs Kind`: token kinds (tokens are their kinds here; the line
number a Rust token carries is bookkeeping no claim mentions). -/
inductive Kind where
  | word (w : Word)
  | redirect (r : Redirect Word)
  | leftBrace
  | rightBrace
  | pipe
  | semi
deriving DecidableEq, Repr

/-- `lexer.rs Stream`: the stream selector in front of a redirection. -/
inductive Stream where
  | stdin
  | stdout
  | stderr
deriving DecidableEq, Repr

/-- `Stream::is_writable`. -/
def Stream.isWritable : Stream → Bool
  | .stdin => false
  | .stdout => true
  | .stderr => true

/-- `lexer.rs WritableStream`. -/
inductive WritableStream where
  | stdout
  | stderr
deriving DecidableEq, Repr

/-- `lexer.rs Location`: a redirect target. -/
inductive Location where
  | path (w : Word)
  | stream (s : WritableStream)
deriving DecidableEq, Repr

/-- Lexer failures.  Each constructor stands for one `bail!`/`Err` site in
`lexer.rs` (messages abstracted); `panicExpectedToken` is the
`expect("expected token")` panic in `consume_redirect_location`;
`outOfFuel` is the artifact of the fuel-indexed embedding. -/
inductive LexErr where
  | missingClosingQuote
  | appendToStream
  | redirectStdinToStream
  | stdoutToItself
  | stderrToItself
  | expectedStreamDigit
  | expectedLocation
  | expectedLocationFoundToken
  | panicExpectedToken
  | outOfFuel
deriving DecidableEq, Repr

/-- The `Lexer` struct state: remaining input, the one-token buffer
`next` (which only ever holds `RightBrace`, set by the `}`
semicolon-insertion path), and the kind of the last emitted token. -/
structure LexState where
  bytes : List Byte
  pending : Bool
  last : Option Kind
deriving DecidableEq, Repr

/-- `Lexer::consume_line_terminators`: drop terminators, push back the
first non-terminator. -/
def consumeLineTerminators (bs : List Byte) : List Byte :=
  bs.dropWhile isLineTerminator

/-- `Lexer::should_insert_semi`: true iff the last emitted kind exists
and is neither `LeftBrace` nor `Semi`. -/
def shouldInsertSemi (last : Option Kind) : Bool :=
  match last with
  | some .leftBrace => false
  | some .semi => false
  | some _ => true
  | none => false

/-- `Lexer::consume_quoted_word`: accumulate bytes until the matching
quote byte `q`; an unterminated quote is a fatal error.  Returns the
word kind and the input remaining after the closing quote. -/
def consumeQuotedWord (q : Byte) (bs : List Byte) : Except LexErr (Kind × List Byte) :=
  let content := bs.takeWhile (fun b => b != q)
  match bs.dropWhile (fun b => b != q) with
  | [] => .error .missingClosingQuote
  | _ :: rest =>
      .ok (.word ⟨content, some (if q == 34 then Quote.double else Quote.single)⟩, rest)

mutual

/-- `<Lexer as Iterator>::next`: emit one token (or end of input, or an
error).  The successor state's `last` is always the emitted kind, exactly
as `Lexer::emit` records it. -/
def lexNext : Nat → LexState → Except LexErr (Option (Kind × LexState))
  | 0, _ => .error .outOfFuel
  | fuel + 1, st =>
      if st.pending then
        .ok (some (.rightBrace, ⟨st.bytes, false, some .rightBrace⟩))
      else
        match scan fuel st.bytes [] st.last with
        | .error e => .error e
        | .ok none => .ok none
        | .ok (some (k, bytes', pending')) => .ok (some (k, ⟨bytes', pending', some k⟩))

/-- The main token-scanning loop of `Lexer::next`, after the `next`
buffer check.  `buf` is the word accumulator.  Returns the emitted kind,
the remaining input, and whether a `RightBrace` was buffered. -/
def scan : Nat → List Byte → List Byte → Option Kind →
    Except LexErr (Option (Kind × List Byte × Bool))
  | 0, _, _, _ => .error .outOfFuel
  | _ + 1, [], buf, last =>
      -- End of input: the `while let` loop is over.
      if buf.isEmpty then
        match last with
        | some .semi => .ok none
        | none => .ok none
        | some _ => .ok (some (.semi, [], false))  -- trailing synthetic Semi
      else .ok (some (.word ⟨buf, none⟩, [], false))
  | fuel + 1, b :: bs, buf, last =>
      if buf.isEmpty then
        match b with
        | 34 =>  -- '"'
            (consumeQuotedWord 34 bs).map (fun kr => some (kr.1, kr.2, false))
        | 39 =>  -- single quote
            (consumeQuotedWord 39 bs).map (fun kr => some (kr.1, kr.2, false))
        | 123 =>  -- left brace: consume trailing line terminators
            .ok (some (.leftBrace, consumeLineTerminators bs, false))
        | 125 =>  -- right brace: maybe insert a Semi first, buffering the brace
            if shouldInsertSemi last then .ok (some (.semi, bs, true))
            else .ok (some (.rightBrace, bs, false))
        | 124 =>  -- pipe
            .ok (some (.pipe, bs, false))
        | 62 =>  -- top of token: redirect bound to stdout
            (consumeRedirect fuel .stdout bs last).map
              (fun rr => some (.redirect rr.1, rr.2, false))
        | 60 =>  -- top of token: redirect bound to stdin
            (consumeRedirect fuel .stdin bs last).map
              (fun rr => some (.redirect rr.1, rr.2, false))
        | 48 =>  -- '0': explicit stdin selector when followed by one more byte
            match bs with
            | 60 :: bs' =>
                (consumeRedirect fuel .stdin bs' last).map
                  (fun rr => some (.redirect rr.1, rr.2, false))
            | [] => .ok (some (.word ⟨[48], none⟩, [], false))
            | _ => scan fuel bs [48] last
        | 49 =>  -- '1'
            match bs with
            | 62 :: bs' =>
                (consumeRedirect fuel .stdout bs' last).map
                  (fun rr => some (.redirect rr.1, rr.2, false))
            | [] => .ok (some (.word ⟨[49], none⟩, [], false))
            | _ => scan fuel bs [49] last
        | 50 =>  -- '2'
            match bs with
            | 62 :: bs' =>
                (consumeRedirect fuel .stderr bs' last).map
                  (fun rr => some (.redirect rr.1, rr.2, false))
            | [] => .ok (some (.word ⟨[50], none⟩, [], false))
            | _ => scan fuel bs [50] last
        | _ => scanCommon fuel b bs buf last
      else scanCommon fuel b bs buf last

/-- The tail of the loop body of `Lexer::next` shared by every byte that
did not match a token-starting special case: line terminators,
whitespace, or an ordinary word byte. -/
def scanCommon : Nat → Byte → List Byte → List Byte → Option Kind →
    Except LexErr (Option (Kind × List Byte × Bool))
  | 0, _, _, _, _ => .error .outOfFuel
  | fuel + 1, b, bs, buf, last =>
      if isLineTerminator b then
        if buf.isEmpty then
          -- Coalesce terminators; suppress the Semi before any emitted token.
          match last with
          | none => scan fuel (consumeLineTerminators bs) [] none
          | some _ => .ok (some (.semi, consumeLineTerminators bs, false))
        else
          -- push_byte(byte) then break: word emitted, terminator not consumed.
          .ok (some (.word ⟨buf, none⟩, b :: bs, false))
      else if isAsciiWhitespace b then
        if buf.isEmpty then scan fuel bs [] last
        else .ok (some (.word ⟨buf, none⟩, bs, false))
      else scan fuel bs (buf ++ [b]) last

/-- `Lexer::consume_redirect`: optional append `>`, then the location;
validity checks as in the source. -/
def consumeRedirect : Nat → Stream → List Byte → Option Kind →
    Except LexErr (Redirect Word × List Byte)
  | 0, _, _, _ => .error .outOfFuel
  | fuel + 1, fd, bs, last =>
      let modeRest : WriteMode × List Byte :=
        if fd.isWritable then
          match bs with
          | 62 :: rest => (.append, rest)
          | _ => (.truncate, bs)
        else (.truncate, bs)
      match consumeRedirectLocation fuel modeRest.2 last with
      | .error e => .error e
      | .ok (loc, rest) =>
          match loc with
          | .stream s =>
              if modeRest.1 == WriteMode.append then .error .appendToStream
              else
                match fd, s with
                | .stdin, _ => .error .redirectStdinToStream
                | .stdout, .stdout => .error .stdoutToItself
                | .stdout, .stderr => .ok (.outErr, rest)
                | .stderr, .stdout => .ok (.errOut, rest)
                | .stderr, .stderr => .error .stderrToItself
          | .path w =>
              match fd with
              | .stdin => .ok (.inFile w, rest)
              | .stdout => .ok (.outFile w modeRest.1, rest)
              | .stderr => .ok (.errFile w modeRest.1, rest)

/-- `Lexer::consume_redirect_location`: `&1`/`&2` stream references, or a
word token read back through the lexer itself.  The Rust code calls
`self.next().expect("expected token")`: a `None` there is a panic. -/
def consumeRedirectLocation : Nat → List Byte → Option Kind →
    Except LexErr (Location × List Byte)
  | 0, _, _ => .error .outOfFuel
  | fuel + 1, bs, last =>
      match bs with
      | [] => .error .expectedLocation
      | 38 :: rest =>  -- '&'
          match rest with
          | 49 :: rest' => .ok (.stream .stdout, rest')
          | 50 :: rest' => .ok (.stream .stderr, rest')
          | _ => .error .expectedStreamDigit
      | _ =>
          -- Push the byte back and read one full token (`self.next()`);
          -- the lexer's `next` buffer is empty whenever this runs.
          match lexNext fuel ⟨bs, false, last⟩ with
          | .error e => .error e
          | .ok none => .error .panicExpectedToken
          | .ok (some (.word w, st')) => .ok (.path w, st'.bytes)
          | .ok (some _) => .error .expectedLocationFoundToken

end

/-- Run the lexer to completion, collecting all token kinds.
`none` means the fuel ran out. -/
def lexAll : Nat → LexState → Option (Except LexErr (List Kind))
  | 0, _ => none
  | fuel + 1, st =>
      match lexNext (fuel + 1) st with
      | .error e => some (.error e)
      | .ok none => some (.ok [])
      | .ok (some (k, st')) =>
          match lexAll fuel st' with
          | none => none
          | some (.error e) => some (.error e)
          | some (.ok ks) => some (.ok (k :: ks))

/-- Initial lexer state for an input byte string. -/
def initLexState (input : List Byte) : LexState := ⟨input, false, none⟩

/-- Tokenize a whole input with fuel that is generous for every input. -/
def tokenize (input : List Byte) : Option (Except LexErr (List Kind)) :=
  lexAll (8 * input.length + 16) (initLexState input)

/-! ## Environment (`environment.rs`) and word expansion (`word.rs`) -/

/-- `environment.rs Var`: value plus exported flag. -/
structure Var where
  value : List Byte
  isExported : Bool
deriving DecidableEq, Repr

/-- `environment.rs Environment`: a map from names to variables.  The
Rust `HashMap` is embedded as a lookup function (keys are unique in a
`HashMap`, so the map view is exact). -/
structure Environment where
  vars : List Byte → Option Var

/-- The byte string `HOME`. -/
def homeName : List Byte := [72, 79, 77, 69]

/-- The byte string `PATH`. -/
def pathName : List Byte := [80, 65, 84, 72]

/-- `Environment::get`: the value stored under a name, if any. -/
def Environment.get (env : Environment) (name : List Byte) : Option (List Byte) :=
  (env.vars name).map Var.value

/-- `Environment::path`: the value of `PATH`, or the empty string when
`PATH` is unset.  Total, unlike `Environment::home`. -/
def Environment.path (env : Environment) : List Byte :=
  match env.get pathName with
  | some value => value
  | none => []

/-- Expansion errors of `word.rs` (`bail!` sites of the `EnvExpander`). -/
inductive ExpErr where
  | missingClosingBrace
  | invalidVarName
deriving DecidableEq, Repr

/-- Failures of `Word::expand`: a propagated expansion error, or the
panic of `Environment::home` (`expect("HOME required")`) when `HOME` is
absent. -/
inductive ExpandFailure where
  | expErr (e : ExpErr)
  | panicHomeMissing
deriving DecidableEq, Repr

/-- `EnvExpander::append_var`: the variable's value, or nothing when it
is unset. -/
def envValue (env : Environment) (name : List Byte) : List Byte :=
  match env.get name with
  | some value => value
  | none => []

/-- `EnvExpander::expand_variable`: after a `$` has been consumed, read
one variable reference from `bs` and return the bytes to append plus the
rest of the input.  A `$` at end of input is a literal `$`. -/
def expandVarStep (env : Environment) (bs : List Byte) :
    Except ExpErr (List Byte × List Byte) :=
  match bs with
  | [] => .ok ([36], [])
  | 123 :: rest =>  -- left brace form
      let name := rest.takeWhile (fun b => b != 125)
      match rest.dropWhile (fun b => b != 125) with
      | [] => .error .missingClosingBrace
      | _ :: rest' =>
          if isValidName name then .ok (envValue env name, rest')
          else .error .invalidVarName
  | _ =>
      let name := bs.takeWhile isValidNameByte
      let rest' := bs.dropWhile isValidNameByte
      if isValidName name then .ok (envValue env name, rest')
      else .error .invalidVarName

theorem dropWhile_length_le (p : Byte → Bool) :
    ∀ l : List Byte, (l.dropWhile p).length ≤ l.length := by
  intro l
  induction l with
  | nil => simp
  | cons b tl ih =>
      simp only [List.dropWhile_cons]
      split
      · exact ih.trans (by simp)
      · simp

theorem expandVarStep_length_le (env : Environment) (bs app rest : List Byte)
    (h : expandVarStep env bs = .ok (app, rest)) : rest.length ≤ bs.length := by
  rw [expandVarStep.eq_def] at h
  split at h
  · cases h; simp
  · rename_i tl
    split at h
    · cases h
    · rename_i x xs hdw
      dsimp only at h
      split at h
      · cases h
        have h1 := dropWhile_length_le (fun b => b != 125) tl
        rw [hdw] at h1
        simp only [List.length_cons] at h1 ⊢
        omega
      · cases h
  · dsimp only at h
    split at h
    · cases h
      exact dropWhile_length_le isValidNameByte bs
    · cases h

/-- The `EnvExpander` main loop (`EnvExpander::expand`): copy bytes,
expanding a variable reference at each `$`. -/
def expandScan (env : Environment) (buf : List Byte) : List Byte → Except ExpErr (List Byte)
  | [] => .ok buf
  | 36 :: rest =>
      match h : expandVarStep env rest with
      | .error e => .error e
      | .ok (app, rest') => expandScan env (buf ++ app) rest'
  | b :: rest => expandScan env (buf ++ [b]) rest
termination_by bs => bs.length
decreasing_by
  · have := expandVarStep_length_le env rest app rest' h
    simp only [List.length_cons]
    omega
  · simp

/-- `word.rs expand_env_vars`: no-op without a `$`, otherwise run the
`EnvExpander` starting at the first `$`. -/
def expandEnvVars (word : List Byte) (env : Environment) : Except ExpErr (List Byte) :=
  match word.findIdx? (fun b => b == 36) with
  | none => .ok word
  | some pos => expandScan env (word.take pos) (36 :: word.drop (pos + 1))

/-- `word.rs expand_tilde`.  The host password database (`getpwnam`) is
the parameter `getpw`: the home directory of a user name, if any. -/
def expandTilde (word : List Byte) (home : List Byte)
    (getpw : List Byte → Option (List Byte)) : List Byte :=
  match word with
  | 126 :: noTilde =>
      if noTilde.isEmpty then home
      else if noTilde.head? == some 47 then home ++ noTilde
      else
        let split : List Byte × Option (List Byte) :=
          match noTilde.findIdx? (fun b => b == 47) with
          | some pos => (noTilde.take pos, some (noTilde.drop pos))
          | none => (noTilde, none)
        match getpw split.1 with
        | some dir =>
            match split.2 with
            | some rest => dir ++ rest
            | none => dir
        | none => word
  | _ => word

/-- `Word::expand`: quote-tag dispatch.  In the unquoted branch the Rust
code evaluates `env.home()` (which panics when `HOME` is unset) before
`expand_tilde` looks at the word. -/
def Word.expand (w : Word) (env : Environment)
    (getpw : List Byte → Option (List Byte)) : Except ExpandFailure (List Byte) :=
  match w.quote with
  | some .single => .ok w.value
  | some .double => (expandEnvVars w.value env).mapError ExpandFailure.expErr
  | none =>
      match env.get homeName with
      | none => .error .panicHomeMissing
      | some home =>
          (expandEnvVars (expandTilde w.value home getpw) env).mapError ExpandFailure.expErr

/-- `ast.rs NameValuePair`. -/
structure NameValuePair where
  name : Word
  value : Word
deriving DecidableEq, Repr

/-- `ast.rs Exportable`. -/
structure Exportable where
  name : Word
  value : Option Word
deriving DecidableEq, Repr

/-- `word.rs parse_quoted_word`: strip matching outer quotes if present. -/
def parseQuotedWord (value : List Byte) : Option Word :=
  if value.length < 2 then none
  else
    let first := value.head!
    let last := value.getLast!
    let inner := (value.drop 1).dropLast
    if first != last then none
    else if first == 39 then some ⟨inner, some .single⟩
    else if first == 34 then some ⟨inner, some .double⟩
    else none

/-- `Word::parse_name_value_pair`: only unquoted words; split at the
first `=` (not at position 0); the name must be valid; the value may be
an embedded quoted literal. -/
def Word.parseNameValuePair (w : Word) : Option NameValuePair :=
  if w.quote.isSome then none
  else
    match w.value.findIdx? (fun b => b == 61) with
    | none => none
    | some 0 => none
    | some pos =>
        let name := w.value.take pos
        let value := w.value.drop (pos + 1)
        if isValidName name then
          some ⟨Word.unquoted name,
                (parseQuotedWord value).getD (Word.unquoted value)⟩
        else none

/-- `Word::is_valid_name`. -/
def Word.isValidNameW (w : Word) : Bool := isValidName w.value

/-- Update one map entry (the effect of `HashMap` entry mutation or
insertion). -/
def Environment.update (env : Environment) (name : List Byte) (var : Var) : Environment :=
  ⟨fun n => if n = name then some var else env.vars n⟩

/-- `Environment::assign`: expand the value against the current
environment; an occupied entry keeps its exported flag, a vacant one is
inserted with `exported = false`. -/
def Environment.assign (env : Environment) (pair : NameValuePair)
    (getpw : List Byte → Option (List Byte)) : Except ExpandFailure Environment :=
  match pair.value.expand env getpw with
  | .error e => .error e
  | .ok value =>
      match env.vars pair.name.value with
      | some old => .ok (env.update pair.name.value ⟨value, old.isExported⟩)
      | none => .ok (env.update pair.name.value ⟨value, false⟩)

/-! ## AST (`ast.rs`, `command.rs`) and parser (`parser.rs`) -/

/-- `command.rs Command`: name, arguments, redirections, command-scoped
environment pairs, and the optional pipeline successor. -/
inductive Command where
  | mk (name : Word) (arguments : List Word) (redirects : List (Redirect Word))
       (env : List NameValuePair) (pipeline : Option Command)

/-- `Command::from_name`. -/
def Command.fromName (name : Word) : Command := .mk name [] [] [] none

/-- `Command::new`. -/
def Command.new (name : Word) (arguments : List Word) : Command :=
  .mk name arguments [] [] none

/-- `Command::add_argument`. -/
def Command.addArgument : Command → Word → Command
  | .mk n a r e p, w => .mk n (a ++ [w]) r e p

/-- `Command::add_redirect`: append to the ordered redirection list.
Present in `command.rs`; the parser in this snapshot never calls it. -/
def Command.addRedirect : Command → Redirect Word → Command
  | .mk n a r e p, rd => .mk n a (r ++ [rd]) e p

/-- `Command::set_env`. -/
def Command.setEnv : Command → List NameValuePair → Command
  | .mk n a r _ p, e => .mk n a r e p

/-- `Command::set_pipeline`. -/
def Command.setPipeline : Command → Command → Command
  | .mk n a r e _, next => .mk n a r e (some next)

/-- The redirect list of a command. -/
def Command.redirects : Command → List (Redirect Word)
  | .mk _ _ r _ _ => r

/-- `ast.rs Stmt` (with `IfStmt`/`WhileStmt` fields inlined;
`Block = Vec<Stmt>`). -/
inductive Stmt where
  | ifS (test : Command) (consequent : List Stmt) (alternate : Option (List Stmt))
  | whileS (test : Command) (body : List Stmt)
  | exportS (exports : List Exportable)
  | assignment (pairs : List NameValuePair)
  | command (c : Command)

/-- Parse failures (messages abstracted to constructors). -/
inductive PErr where
  | lexError (e : LexErr)
  | unexpected
  | notAValidName
  | emptyExport
  | outOfFuel
deriving DecidableEq, Repr

/-- The keyword `if`. -/
def kwIf : List Byte := [105, 102]

/-- The keyword `while`. -/
def kwWhile : List Byte := [119, 104, 105, 108, 101]

/-- The keyword `export`. -/
def kwExport : List Byte := [101, 120, 112, 111, 114, 116]

/-- The keyword `else`. -/
def kwElse : List Byte := [101, 108, 115, 101]

/-- `Parser::match_word` over the token stream: take a leading word
token, pushing anything else back. -/
def matchWordK : List Kind → Option Word × List Kind
  | .word w :: rest => (some w, rest)
  | ts => (none, ts)

/-- `Parser::match_token`: consume a leading token equal to `expected`
(full kind equality, quote tags included). -/
def matchTokenK (expected : Kind) : List Kind → Bool × List Kind
  | t :: rest => if t = expected then (true, rest) else (false, t :: rest)
  | [] => (false, [])

/-- `parser.rs assert_word`: the token must be a word. -/
def assertWordK : Kind → Except PErr Word
  | .word w => .ok w
  | _ => .error .unexpected

/-- The argument-collecting loop of `Parser::parse_command`
(`while let Some(argument) = self.match_word()`). -/
def spanWords : List Kind → List Word × List Kind
  | .word w :: rest =>
      let (ws, r) := spanWords rest
      (w :: ws, r)
  | ts => ([], ts)

/-- The collection loop of `Parser::parse_export_stmt`. -/
def collectExports : List Kind → Except PErr (List Exportable × List Kind)
  | .word w :: rest =>
      match w.parseNameValuePair with
      | some pair =>
          (collectExports rest).map (fun er => (⟨pair.name, some pair.value⟩ :: er.1, er.2))
      | none =>
          if w.isValidNameW then
            (collectExports rest).map (fun er => (⟨w, none⟩ :: er.1, er.2))
          else .error .notAValidName
  | ts => .ok ([], ts)

mutual

/-- `Parser::parse`: statements each followed by a mandatory `Semi`. -/
def parseProgram : Nat → List Kind → Except PErr (List Stmt)
  | 0, _ => .error .outOfFuel
  | _ + 1, [] => .ok []
  | fuel + 1, t :: ts =>
      match parseStmt fuel t ts with
      | .error e => .error e
      | .ok (stmt, rest) =>
          match rest with
          | .semi :: rest' => (parseProgram fuel rest').map (fun l => stmt :: l)
          | _ => .error .unexpected  -- assert_token(Semi) failed (or EOF)

/-- `Parser::parse_stmt`: keyword dispatch on the word's bytes. -/
def parseStmt : Nat → Kind → List Kind → Except PErr (Stmt × List Kind)
  | 0, _, _ => .error .outOfFuel
  | fuel + 1, t, ts =>
      match assertWordK t with
      | .error e => .error e
      | .ok word =>
          if word.value = kwIf then
            (parseIfStmt fuel ts).map (fun r => (.ifS r.1.1 r.1.2.1 r.1.2.2, r.2))
          else if word.value = kwWhile then
            match parseCommand fuel none ts with
            | .error e => .error e
            | .ok (test, ts1) =>
                (parseBlock fuel ts1).map (fun r => (.whileS test r.1, r.2))
          else if word.value = kwExport then
            match collectExports ts with
            | .error e => .error e
            | .ok ([], _) => .error .emptyExport
            | .ok (exports, rest) => .ok (.exportS exports, rest)
          else parseAssignmentOrCommand fuel word ts

/-- `Parser::parse_if_stmt`: test command, consequent block, and the
optional `else`/`else if` alternate. -/
def parseIfStmt : Nat → List Kind →
    Except PErr ((Command × List Stmt × Option (List Stmt)) × List Kind)
  | 0, _ => .error .outOfFuel
  | fuel + 1, ts =>
      match parseCommand fuel none ts with
      | .error e => .error e
      | .ok (test, ts1) =>
          match parseBlock fuel ts1 with
          | .error e => .error e
          | .ok (consequent, ts2) =>
              match matchTokenK (.word ⟨kwElse, none⟩) ts2 with
              | (false, ts3) => .ok ((test, consequent, none), ts3)
              | (true, ts3) =>
                  match matchTokenK (.word ⟨kwIf, none⟩) ts3 with
                  | (true, ts4) =>
                      (parseIfStmt fuel ts4).map
                        (fun r => ((test, consequent,
                          some [Stmt.ifS r.1.1 r.1.2.1 r.1.2.2]), r.2))
                  | (false, ts4) =>
                      (parseBlock fuel ts4).map
                        (fun r => ((test, consequent, some r.1), r.2))

/-- `Parser::parse_block`: `{`, statements each followed by `Semi`,
closed by `}`; EOF inside a block is an error. -/
def parseBlock : Nat → List Kind → Except PErr (List Stmt × List Kind)
  | 0, _ => .error .outOfFuel
  | fuel + 1, ts =>
      match ts with
      | .leftBrace :: ts1 => parseBlockBody fuel ts1
      | _ => .error .unexpected  -- assert_token(LeftBrace) failed

/-- The statement loop inside `Parser::parse_block`. -/
def parseBlockBody : Nat → List Kind → Except PErr (List Stmt × List Kind)
  | 0, _ => .error .outOfFuel
  | fuel + 1, ts =>
      match ts with
      | [] => .error .unexpected  -- unexpected EOF parsing block
      | .rightBrace :: rest => .ok ([], rest)
      | t :: rest =>
          match parseStmt fuel t rest with
          | .error e => .error e
          | .ok (stmt, rest1) =>
              match rest1 with
              | .semi :: rest2 =>
                  (parseBlockBody fuel rest2).map (fun r => (stmt :: r.1, r.2))
              | _ => .error .unexpected  -- assert_token(Semi) failed

/-- `Parser::parse_assignment_or_command`: a leading name/value pair
starts an assignment list; the first non-pair word turns the collected
pairs into the command-scoped environment of a command. -/
def parseAssignmentOrCommand : Nat → Word → List Kind → Except PErr (Stmt × List Kind)
  | 0, _, _ => .error .outOfFuel
  | fuel + 1, word, ts =>
      match word.parseNameValuePair with
      | some pair => parseAssignmentTail fuel [pair] ts
      | none =>
          (parseCommand fuel (some word) ts).map (fun r => (.command r.1, r.2))

/-- The pair-collecting loop of `Parser::parse_assignment_or_command`. -/
def parseAssignmentTail : Nat → List NameValuePair → List Kind →
    Except PErr (Stmt × List Kind)
  | 0, _, _ => .error .outOfFuel
  | fuel + 1, env, ts =>
      match matchWordK ts with
      | (none, rest) => .ok (.assignment env, rest)
      | (some w, rest) =>
          match w.parseNameValuePair with
          | some pair => parseAssignmentTail fuel (env ++ [pair]) rest
          | none =>
              (parseCommand fuel (some w) rest).map
                (fun r => (.command (r.1.setEnv env), r.2))

/-- `Parser::parse_command`: name, then `match_word` arguments only
(note: no arm consumes `Kind::Redirect`), then an optional pipe with a
right-recursive tail. -/
def parseCommand : Nat → Option Word → List Kind → Except PErr (Command × List Kind)
  | 0, _, _ => .error .outOfFuel
  | fuel + 1, nameOpt, ts =>
      let nameRes : Except PErr (Word × List Kind) :=
        match nameOpt with
        | some name => .ok (name, ts)
        | none =>
            match ts with
            | t :: rest => (assertWordK t).map (fun w => (w, rest))
            | [] => .error .unexpected  -- expected command, found EOF
      match nameRes with
      | .error e => .error e
      | .ok (name, ts1) =>
          let (args, ts2) := spanWords ts1
          let command := args.foldl Command.addArgument (Command.fromName name)
          match matchTokenK .pipe ts2 with
          | (false, ts3) => .ok (command, ts3)
          | (true, ts3) =>
              (parseCommand fuel none ts3).map
                (fun r => (command.setPipeline r.1, r.2))

end

/-- `parser.rs parse`: lex the input, then run the recursive descent.
The Rust parser pulls tokens lazily; eager tokenization coincides with
it on every input whose tokenization succeeds, which covers every run
examined here. -/
def parse (input : List Byte) : Except PErr (List Stmt) :=
  match tokenize input with
  | none => .error (.lexError .outOfFuel)
  | some (.error e) => .error (.lexError e)
  | some (.ok ts) => parseProgram (4 * ts.length + 16) ts

/-- Does an `Except` hold a success value? -/
def isOkE {ε α : Type} : Except ε α → Bool
  | .ok _ => true
  | .error _ => false

/-! ## Status (`status.rs`) and working directory (`cwd.rs`) -/

/-- `status.rs Status`. -/
inductive Status where
  | success
  | failure
deriving DecidableEq, Repr

/-- `impl From<i32> for Status`: success iff the code is
`libc::EXIT_SUCCESS` (0). -/
def Status.ofCode (code : Nat) : Status :=
  if code = 0 then .success else .failure

/-- `Status::is_success`. -/
def Status.isSuccess : Status → Bool
  | .success => true
  | .failure => false

/-- `cwd.rs Cwd`: current path and the optional previous path. -/
structure Cwd where
  path : List Byte
  last : Option (List Byte)
deriving DecidableEq, Repr

/-- Rust `Path::is_relative` on unix: does not start with `/`. -/
def isRelativePath (p : List Byte) : Bool :=
  match p with
  | 47 :: _ => false
  | _ => true

/-- Rust `PathBuf::join`/`push` for the non-absolute second operand used
here: base, separator, then the relative path. -/
def pathJoin (base p : List Byte) : List Byte := base ++ 47 :: p

/-- The path-resolution step at the top of `Cwd::cd` (after the
too-many-arguments check): `-` means the previous directory (or the
current one when there is none); no argument means the home directory,
whose absence is the `expect("HOME required")` panic (`none`). -/
def resolveCdPath (homeDir : Option (List Byte)) (st : Cwd) (argv : List (List Byte)) :
    Option (List Byte) :=
  match argv.head? with
  | some p =>
      if p = [45] then
        some (match st.last with
              | some l => l
              | none => st.path)
      else some p
  | none => homeDir

/-- `Cwd::cd`.  External collaborators are parameters: `chdirOk` is
whether `env::set_current_dir` succeeds on a path, `canon` is
`Path::canonicalize` (its failure is an `expect` panic, hence `none`),
`homeDir` is `env::home_dir()`.  The result is `none` on a panic,
otherwise the status together with the successor state. -/
def Cwd.cd (chdirOk : List Byte → Bool) (canon : List Byte → Option (List Byte))
    (homeDir : Option (List Byte)) (st : Cwd) (argv : List (List Byte)) :
    Option (Status × Cwd) :=
  if argv.length > 1 then
    some (.failure, st)  -- "cd: too many arguments" printed
  else
    match resolveCdPath homeDir st argv with
    | none => none  -- panic: HOME required
    | some path =>
        if chdirOk path = false then
          some (.failure, st)  -- error printed; no mutation
        else
          let absolute := if isRelativePath path then pathJoin st.path path else path
          match canon absolute with
          | none => none  -- panic: error canonicalizing path
          | some canonical => some (.success, ⟨canonical, some st.path⟩)

/-! ## Child-side exec with PATH walk (`interpreter.rs execute_child`,
`execve`, `command.rs into_execv`) -/

/-- The outcome the OS gives one `execve` attempt (parameterizing
`nix::unistd::execve`). -/
inductive ExecResult where
  | success
  | enoent
  | otherError
deriving DecidableEq, Repr

/-- What the child process ends up doing.  `execed p` is a successful
`execve` of `p`; `exitError p` is the `execve` wrapper printing the
candidate path with the error text and calling `process::exit(1)`;
`commandNotFound` prints `command not found: <name>` to stderr and
exits 1. -/
inductive ChildResult where
  | execed (path : List Byte)
  | exitError (path : List Byte)
  | commandNotFound
deriving DecidableEq, Repr

/-- The exit code a `ChildResult` implies for the child process (`none`
when the exec succeeded: the new image decides the exit code). -/
def childExitCode : ChildResult → Option Nat
  | .execed _ => none
  | .exitError _ => some 1
  | .commandNotFound => some 1

/-- Rust `std::env::split_paths`: split the `PATH` value at `:` . -/
def splitPaths (s : List Byte) : List (List Byte) :=
  match hf : s.findIdx? (fun b => b == 58) with
  | none => [s]
  | some pos => s.take pos :: splitPaths (s.drop (pos + 1))
termination_by s.length
decreasing_by
  have hlt : pos < s.length := List.findIdx?_eq_some_iff_findIdx_eq.mp hf |>.1
  simp only [List.length_drop]
  omega

/-- The PATH walk in `execute_child` for a `Relative` exec target: for
each directory, attempt `execve` on `dir/name`; `ENOENT` falls through
silently, any other error exits 1 printing the candidate; exhaustion is
`command not found`. -/
def pathSearch (exec : List Byte → ExecResult) (name : List Byte) :
    List (List Byte) → ChildResult
  | [] => .commandNotFound
  | dir :: rest =>
      match exec (pathJoin dir name) with
      | .success => .execed (pathJoin dir name)
      | .enoent => pathSearch exec name rest
      | .otherError => .exitError (pathJoin dir name)

/-- The exec tail of `execute_child`: a name containing `/` is executed
directly (`Execv::Exact`); otherwise the colon-separated `PATH` of the
environment is walked (`Execv::Relative`). -/
def executeChildExec (exec : List Byte → ExecResult) (env : Environment)
    (name : List Byte) : ChildResult :=
  if name.contains 47 then
    match exec name with
    | .success => .execed name
    | .enoent => .commandNotFound
    | .otherError => .exitError name
  else pathSearch exec name (splitPaths env.path)

/-! ## Pipeline spawning and the wait/reap loop (`interpreter.rs
execute`, `spawn_children`) -/

/-- `command.rs ExpandedCommand`: every word replaced by its expanded
byte string; the pipeline successor chains on. -/
inductive ExpandedCommand where
  | mk (name : List Byte) (arguments : List (List Byte))
       (redirects : List (Redirect (List Byte)))
       (env : List (List Byte × List Byte)) (pipeline : Option ExpandedCommand)

/-- The pipeline successor of an expanded command. -/
def ExpandedCommand.pipeline : ExpandedCommand → Option ExpandedCommand
  | .mk _ _ _ _ p => p

/-- The number of commands in a pipeline chain. -/
def ExpandedCommand.chainLen : ExpandedCommand → Nat
  | .mk _ _ _ _ none => 1
  | .mk _ _ _ _ (some next) => 1 + next.chainLen

/-- `spawn_children`: fork each command of the chain left to right,
recording every child pid and returning the pid of the last command.
The pids the successive `fork` calls return are the parameter `supply`
(indexed by fork order); pipe plumbing is dropped here — it hands fds to
children and closes them in the parent, and no claim mentions it. -/
def spawnChildren (supply : Nat → Nat) : Nat → ExpandedCommand → List Nat × Nat
  | i, .mk _ _ _ _ none => ([supply i], supply i)
  | i, .mk _ _ _ _ (some next) =>
      let r := spawnChildren supply (i + 1) next
      (supply i :: r.1, r.2)

/-- One observation of the blocked-signal wait loop in `execute`:
either `sigset.wait()` returns `SIGINT`/`SIGQUIT` (ignored), or it
returns `SIGCHLD` and the draining `waitpid(WNOHANG)` loop yields
`Exited`, `Signaled`, some other status (logged only), `StillAlive`
(inner break), or `ECHILD` (the outer loop's terminator). -/
inductive WaitEvent where
  | sigIntOrQuit
  | exited (pid : Nat) (code : Nat)
  | signaled (pid : Nat)
  | otherStatus
  | stillAlive
  | echild
deriving DecidableEq, Repr

/-- The wait loop of `execute`, driven by the event trace.  Reaping a
pid not in the set is the `assert!(pids.remove(&pid))` panic (`none`);
running out of trace means the loop is still blocked in `sigset.wait()`
(`none` as well).  A reaped pid equal to the last child's records the
pipeline status. -/
def waitLoop : List WaitEvent → List Nat → Nat → Status → Option (List Nat × Status)
  | [], _, _, _ => none
  | ev :: rest, pids, lastPid, status =>
      match ev with
      | .sigIntOrQuit => waitLoop rest pids lastPid status
      | .otherStatus => waitLoop rest pids lastPid status
      | .stillAlive => waitLoop rest pids lastPid status
      | .echild => some (pids, status)
      | .exited pid code =>
          if pid ∈ pids then
            waitLoop rest (pids.erase pid) lastPid
              (if pid = lastPid then Status.ofCode code else status)
          else none
      | .signaled pid =>
          if pid ∈ pids then
            waitLoop rest (pids.erase pid) lastPid
              (if pid = lastPid then Status.failure else status)
          else none

/-- `interpreter.rs execute`: spawn the chain, run the wait loop, check
`assert!(pids.is_empty())`, and return the recorded status.  `none` is a
panic (a failed assert or a forever-blocked wait). -/
def executePipeline (supply : Nat → Nat) (events : List WaitEvent)
    (cmd : ExpandedCommand) : Option Status :=
  let spawned := spawnChildren supply 0 cmd
  match waitLoop events spawned.1 spawned.2 .success with
  | none => none
  | some (remaining, status) =>
      if remaining.isEmpty then some status else none

/-! ## Claim theorems -/

/-- Claim C3: for every word and environment, a Single-quoted word
expands to its bytes verbatim; a Double-quoted word undergoes variable
expansion (`expand_env_vars`) but no tilde expansion; an unquoted word
undergoes tilde expansion first and then variable expansion (given the
`HOME` value the unquoted branch reads before looking at the word). -/
theorem expand_quote_dispatch (w : Word) (env : Environment)
    (getpw : List Byte → Option (List Byte)) :
    (w.quote = some Quote.single → w.expand env getpw = .ok w.value) ∧
    (w.quote = some Quote.double →
      w.expand env getpw = (expandEnvVars w.value env).mapError ExpandFailure.expErr) ∧
    (∀ home, w.quote = none → env.get homeName = some home →
      w.expand env getpw =
        (expandEnvVars (expandTilde w.value home getpw) env).mapError ExpandFailure.expErr) := by
  refine ⟨fun hq => ?_, fun hq => ?_, fun home hq hh => ?_⟩
  · simp [Word.expand, hq]
  · simp [Word.expand, hq]
  · simp [Word.expand, hq, hh]

/-- Witness for C3: concrete words of each quote tag, in an environment
where `HOME` is `/h`; the unquoted `~x` word goes through the password
database while the quoted ones do not. -/
theorem expand_quote_dispatch_witness :
    (Word.expand ⟨[126, 47, 97], some Quote.single⟩ ⟨fun n => if n = homeName then some ⟨[47, 104], true⟩ else none⟩ (fun _ => none) = .ok [126, 47, 97]) ∧
    (Word.expand ⟨[126, 47, 97], some Quote.double⟩ ⟨fun n => if n = homeName then some ⟨[47, 104], true⟩ else none⟩ (fun _ => none) = .ok [126, 47, 97]) ∧
    (Word.expand ⟨[126, 47, 97], none⟩ ⟨fun n => if n = homeName then some ⟨[47, 104], true⟩ else none⟩ (fun _ => none) = .ok [47, 104, 47, 97]) := by
  refine ⟨?_, ?_, ?_⟩
  · have h := (expand_quote_dispatch ⟨[126, 47, 97], some Quote.single⟩
      ⟨fun n => if n = homeName then some ⟨[47, 104], true⟩ else none⟩ (fun _ => none)).1 rfl
    exact h
  · have h := (expand_quote_dispatch ⟨[126, 47, 97], some Quote.double⟩
      ⟨fun n => if n = homeName then some ⟨[47, 104], true⟩ else none⟩ (fun _ => none)).2.1 rfl
    rw [h]; rfl
  · have h := ((expand_quote_dispatch ⟨[126, 47, 97], none⟩
      ⟨fun n => if n = homeName then some ⟨[47, 104], true⟩ else none⟩ (fun _ => none)).2.2)
      [47, 104] rfl (by rfl)
    rw [h]; rfl

/-- Claim C9: expanding an unquoted word evaluates `env.home()` before
the word is inspected, and `home()` panics exactly when `HOME` is
absent; so for every unquoted word — tilde or not — expansion panics iff
`HOME` is unset, and never panics otherwise. -/
theorem expand_home_panic_iff (w : Word) (env : Environment)
    (getpw : List Byte → Option (List Byte)) (hq : w.quote = none) :
    w.expand env getpw = .error ExpandFailure.panicHomeMissing ↔
      env.get homeName = none := by
  constructor
  · intro h
    rcases hh : env.get homeName with _ | home
    · rfl
    · exfalso
      have heq : w.expand env getpw =
          (expandEnvVars (expandTilde w.value home getpw) env).mapError ExpandFailure.expErr := by
        simp [Word.expand, hq, hh]
      rw [heq] at h
      rcases he : expandEnvVars (expandTilde w.value home getpw) env with e | v <;>
        rw [he] at h <;> simp [Except.mapError] at h
  · intro h
    simp [Word.expand, hq, h]

/-- Witness for C9: the unquoted word `x` (which contains no tilde)
panics in an empty environment and expands fine once `HOME` is set. -/
theorem expand_home_panic_iff_witness :
    (Word.expand ⟨[120], none⟩ ⟨fun _ => none⟩ (fun _ => none) =
      .error ExpandFailure.panicHomeMissing) ∧
    (Word.expand ⟨[120], none⟩ ⟨fun n => if n = homeName then some ⟨[47, 104], true⟩ else none⟩ (fun _ => none) ≠
      .error ExpandFailure.panicHomeMissing) := by
  constructor
  · exact (expand_home_panic_iff ⟨[120], none⟩ ⟨fun _ => none⟩ (fun _ => none) rfl).mpr rfl
  · intro h
    have := (expand_home_panic_iff ⟨[120], none⟩
      ⟨fun n => if n = homeName then some ⟨[47, 104], true⟩ else none⟩ (fun _ => none) rfl).mp h
    simp [Environment.get, homeName] at this

/-- Claim C6: `Environment::assign` stores the expanded value under the
pair's name; a previously absent entry is inserted with
`exported = false`, while an already-present entry keeps its exported
flag (in particular an exported name stays exported). -/
theorem assign_preserves_export_flag (env : Environment) (pair : NameValuePair)
    (getpw : List Byte → Option (List Byte)) (v : List Byte)
    (hexp : pair.value.expand env getpw = .ok v) :
    ∃ env2, env.assign pair getpw = .ok env2 ∧
      (env.vars pair.name.value = none →
        env2.vars pair.name.value = some ⟨v, false⟩) ∧
      (∀ old, env.vars pair.name.value = some old →
        env2.vars pair.name.value = some ⟨v, old.isExported⟩) ∧
      (∀ n, n ≠ pair.name.value → env2.vars n = env.vars n) := by
  rcases hold : env.vars pair.name.value with _ | old
  · refine ⟨env.update pair.name.value ⟨v, false⟩, ?_, ?_, ?_, ?_⟩
    · rw [Environment.assign, hexp, hold]
    · intro _; simp [Environment.update]
    · intro old h; simp at h
    · intro n hn; simp [Environment.update, hn]
  · refine ⟨env.update pair.name.value ⟨v, old.isExported⟩, ?_, ?_, ?_, ?_⟩
    · rw [Environment.assign, hexp, hold]
    · intro h; simp at h
    · intro old2 h
      injection h with h2
      subst h2
      simp [Environment.update]
    · intro n hn; simp [Environment.update, hn]

/-- Witness for C6: assigning `X='2'` over an environment where `X` is
exported keeps it exported; assigning `Y='3'` (absent before) inserts it
unexported. -/
theorem assign_preserves_export_flag_witness :
    (∃ env2, Environment.assign ⟨fun n => if n = [88] then some ⟨[49], true⟩ else none⟩ ⟨⟨[88], none⟩, ⟨[50], some Quote.single⟩⟩ (fun _ => none) = .ok env2 ∧
      env2.vars [88] = some ⟨[50], true⟩) ∧
    (∃ env2, Environment.assign ⟨fun _ => none⟩ ⟨⟨[89], none⟩, ⟨[51], some Quote.single⟩⟩ (fun _ => none) = .ok env2 ∧
      env2.vars [89] = some ⟨[51], false⟩) := by
  constructor
  · obtain ⟨env2, hok, _, hsome, _⟩ := assign_preserves_export_flag
      ⟨fun n => if n = [88] then some ⟨[49], true⟩ else none⟩
      ⟨⟨[88], none⟩, ⟨[50], some Quote.single⟩⟩ (fun _ => none) [50] rfl
    exact ⟨env2, hok, hsome ⟨[49], true⟩ (by simp)⟩
  · obtain ⟨env2, hok, hnone, _, _⟩ := assign_preserves_export_flag
      ⟨fun _ => none⟩ ⟨⟨[89], none⟩, ⟨[51], some Quote.single⟩⟩ (fun _ => none) [51] rfl
    exact ⟨env2, hok, hnone rfl⟩

/-- Claim C10: `Environment::path` is total: it yields the stored `PATH`
value when `PATH` is set and the empty byte string when it is unset —
no panic, unlike `Environment::home` (whose absence panic is the
`panicHomeMissing` case of expansion). -/
theorem path_total_default_empty (env : Environment) :
    (env.get pathName = none → env.path = []) ∧
    (∀ v, env.get pathName = some v → env.path = v) := by
  constructor
  · intro h; rw [Environment.path, h]
  · intro v h; rw [Environment.path, h]

/-- Witness for C10: an environment without `PATH` yields the empty
string; one with `PATH=/bin` yields `/bin`. -/
theorem path_total_default_empty_witness :
    (Environment.path ⟨fun _ => none⟩ = []) ∧
    (Environment.path ⟨fun n => if n = pathName then some ⟨[47, 98, 105, 110], true⟩ else none⟩ = [47, 98, 105, 110]) := by
  constructor
  · exact (path_total_default_empty ⟨fun _ => none⟩).1 rfl
  · exact (path_total_default_empty
      ⟨fun n => if n = pathName then some ⟨[47, 98, 105, 110], true⟩ else none⟩).2
      [47, 98, 105, 110] (by rfl)

/-- Claim C7: whenever `Cwd::cd` reaches `chdir` (at most one argument,
path resolution did not panic) and `chdir` fails, it returns `Failure`
with both the current path and the previous-path slot unchanged. -/
theorem cd_chdir_failure_no_mutation (chdirOk : List Byte → Bool)
    (canon : List Byte → Option (List Byte)) (homeDir : Option (List Byte))
    (st : Cwd) (argv : List (List Byte)) (p : List Byte)
    (hlen : argv.length ≤ 1)
    (hres : resolveCdPath homeDir st argv = some p)
    (hfail : chdirOk p = false) :
    Cwd.cd chdirOk canon homeDir st argv = some (.failure, st) := by
  have hgt : ¬ (argv.length > 1) := by omega
  simp [Cwd.cd, hgt, hres, hfail]

/-- Witness for C7: `cd /nope` with a `chdir` that always fails leaves
the state `⟨/a, none⟩` untouched and reports failure. -/
theorem cd_chdir_failure_no_mutation_witness :
    Cwd.cd (fun _ => false) (fun p => some p) (some [47, 104]) ⟨[47, 97], none⟩
      [[47, 110, 111, 112, 101]] = some (.failure, ⟨[47, 97], none⟩) :=
  cd_chdir_failure_no_mutation (fun _ => false) (fun p => some p) (some [47, 104])
    ⟨[47, 97], none⟩ [[47, 110, 111, 112, 101]] [47, 110, 111, 112, 101]
    (by decide) (by rfl) rfl

/-- Claim C8: in the PATH walk for an unqualified name, `ENOENT`
candidates fall through silently; the first candidate failing with any
other error makes the child print that candidate and exit 1; and if
every candidate misses with `ENOENT` (including the empty candidate
list), the child prints `command not found` and exits 1. -/
theorem path_walk_enoent_fallthrough (exec : List Byte → ExecResult)
    (name : List Byte) (dirs1 : List (List Byte)) (d : List Byte)
    (dirs2 dirs : List (List Byte))
    (hpre : ∀ d2 ∈ dirs1, exec (pathJoin d2 name) = .enoent) :
    (exec (pathJoin d name) = .otherError →
      pathSearch exec name (dirs1 ++ d :: dirs2) = .exitError (pathJoin d name) ∧
      childExitCode (pathSearch exec name (dirs1 ++ d :: dirs2)) = some 1) ∧
    ((∀ d2 ∈ dirs, exec (pathJoin d2 name) = .enoent) →
      pathSearch exec name dirs = .commandNotFound ∧
      childExitCode (pathSearch exec name dirs) = some 1) := by
  have skip : ∀ pre tail, (∀ d2 ∈ pre, exec (pathJoin d2 name) = .enoent) →
      pathSearch exec name (pre ++ tail) = pathSearch exec name tail := by
    intro pre
    induction pre with
    | nil => intro tail _; rfl
    | cons a rest ih =>
        intro tail hall
        have ha := hall a (by simp)
        simp only [List.cons_append, pathSearch, ha]
        exact ih tail (fun d2 hd2 => hall d2 (by simp [hd2]))
  constructor
  · intro herr
    have h1 : pathSearch exec name (dirs1 ++ d :: dirs2) = .exitError (pathJoin d name) := by
      rw [skip dirs1 (d :: dirs2) hpre]
      simp [pathSearch, herr]
    exact ⟨h1, by rw [h1]; rfl⟩
  · intro hall
    have h1 : pathSearch exec name dirs = .commandNotFound := by
      have : dirs = dirs ++ [] := by simp
      rw [this, skip dirs [] hall]
      rfl
    exact ⟨h1, by rw [h1]; rfl⟩

/-- Witness for C8: with candidates `/a`, `/b`, `/c` for name `x` where
`/a/x` is `ENOENT`: an other-error at `/b/x` exits 1 naming `/b/x`, and
all-`ENOENT` candidates end in `command not found`. -/
theorem path_walk_enoent_fallthrough_witness :
    (pathSearch (fun p => if p = pathJoin [47, 98] [120] then ExecResult.otherError else ExecResult.enoent) [120] [[47, 97], [47, 98], [47, 99]] = .exitError (pathJoin [47, 98] [120])) ∧
    (pathSearch (fun _ => ExecResult.enoent) [120] [[47, 97], [47, 98], [47, 99]] = .commandNotFound) := by
  constructor
  · exact ((path_walk_enoent_fallthrough
      (fun p => if p = pathJoin [47, 98] [120] then ExecResult.otherError else ExecResult.enoent)
      [120] [[47, 97]] [47, 98] [[47, 99]] []
      (by intro d2 hd2; simp at hd2; subst hd2; decide)).1 (by decide)).1
  · exact ((path_walk_enoent_fallthrough (fun _ => ExecResult.enoent) [120]
      [] [47, 97] [] [[47, 97], [47, 98], [47, 99]]
      (by intro d2 hd2; simp at hd2)).2 (fun d2 _ => rfl)).1

/-- The bytes of `echo hi >out` followed by a newline. -/
def inputEchoRedirect : List Byte := [101, 99, 104, 111, 32, 104, 105, 32, 62, 111, 117, 116, 10]

/-- The bytes of `echo hi` followed by a newline. -/
def inputEchoPlain : List Byte := [101, 99, 104, 111, 32, 104, 105, 10]

/-- Claim C1 (evidence of the code bug): the lexer turns `>out` into a
`Redirect` token and `Command::add_redirect` would append it to the
ordered redirection list, but `Parser::parse_command` has no arm for
`Kind::Redirect` tokens (its argument loop only matches words), so the
mandatory `Semi` assertion fails and `echo hi >out` is a parse error
while `echo hi` parses fine. -/
theorem parser_rejects_redirect_tokens :
    tokenize inputEchoRedirect =
      some (.ok [.word ⟨[101, 99, 104, 111], none⟩, .word ⟨[104, 105], none⟩,
        .redirect (.outFile ⟨[111, 117, 116], none⟩ .truncate), .semi]) ∧
    isOkE (parse inputEchoRedirect) = false ∧
    isOkE (parse inputEchoPlain) = true ∧
    ((Command.fromName ⟨[101, 99, 104, 111], none⟩).addRedirect
        (.outFile ⟨[111, 117, 116], none⟩ .truncate)).redirects =
      [.outFile ⟨[111, 117, 116], none⟩ .truncate] := by
  refine ⟨by decide, by decide, by decide, by decide⟩

/-- An input of `{`, then `n` blank lines, then `}`. -/
def braceBlankInput (n : Nat) : List Byte := 123 :: (List.replicate n 10 ++ [125])

/-- Counterexample to claim C5 as stated: for one blank line between the
braces the lexer emits `LeftBrace, RightBrace, Semi` — rule 6 inserts no
`Semi` when the token before `}` is `LeftBrace` — not the claimed
`LeftBrace, Semi, RightBrace, Semi`. -/
theorem brace_blank_brace_claim_false :
    tokenize (braceBlankInput 1) =
      some (.ok [Kind.leftBrace, Kind.rightBrace, Kind.semi]) ∧
    ([Kind.leftBrace, Kind.rightBrace, Kind.semi] ≠
      [Kind.leftBrace, Kind.semi, Kind.rightBrace, Kind.semi]) := by
  refine ⟨by decide, by decide⟩

theorem replicate_newline_dropWhile (n : Nat) :
    (List.replicate n 10 ++ [125]).dropWhile isLineTerminator = [125] := by
  induction n with
  | zero => rfl
  | succ m ih =>
      rw [List.replicate_succ]
      simp only [List.cons_append, List.dropWhile_cons]
      norm_num [isLineTerminator, ih]

/-- Claim C5 (amended): tokenizing `{`, any number of blank lines, `}`
yields exactly `LeftBrace, RightBrace, Semi`. -/
theorem brace_blank_brace_tokens (n : Nat) :
    tokenize (braceBlankInput n) =
      some (.ok [Kind.leftBrace, Kind.rightBrace, Kind.semi]) := by
  have hstep1 : ∀ f, lexNext (f + 2) ⟨braceBlankInput n, false, none⟩ =
      .ok (some (.leftBrace, ⟨[125], false, some .leftBrace⟩)) := by
    intro f
    simp [lexNext, scan, braceBlankInput, consumeLineTerminators,
      replicate_newline_dropWhile]
  have hstep2 : ∀ f, lexNext (f + 2) ⟨[125], false, some Kind.leftBrace⟩ =
      .ok (some (.rightBrace, ⟨[], false, some .rightBrace⟩)) := by
    intro f
    simp [lexNext, scan, shouldInsertSemi]
  have hstep3 : ∀ f, lexNext (f + 2) ⟨[], false, some Kind.rightBrace⟩ =
      .ok (some (.semi, ⟨[], false, some .semi⟩)) := by
    intro f
    simp [lexNext, scan]
  have hstep4 : ∀ f, lexNext (f + 2) ⟨[], false, some Kind.semi⟩ = .ok none := by
    intro f
    simp [lexNext, scan]
  have hchain : ∀ f, lexAll (f + 8) ⟨braceBlankInput n, false, none⟩ =
      some (.ok [Kind.leftBrace, Kind.rightBrace, Kind.semi]) := by
    intro f
    have e1 := hstep1 (f + 6)
    have e2 := hstep2 (f + 5)
    have e3 := hstep3 (f + 4)
    have e4 := hstep4 (f + 3)
    simp only [lexAll, e1, e2, e3, e4]
  have hlen : (braceBlankInput n).length = n + 2 := by
    simp [braceBlankInput]
  rw [tokenize, initLexState, hlen]
  have harith : 8 * (n + 2) + 16 = (8 * n + 24) + 8 := by omega
  rw [harith]
  exact hchain (8 * n + 24)

theorem spawnChildren_length (supply : Nat → Nat) :
    ∀ (cmd : ExpandedCommand) (i : Nat),
      ((spawnChildren supply i cmd).1).length = cmd.chainLen
  | .mk _ _ _ _ none, _ => by
      simp [spawnChildren, ExpandedCommand.chainLen]
  | .mk _ _ _ _ (some next), i => by
      have ih := spawnChildren_length supply next (i + 1)
      simp [spawnChildren, ExpandedCommand.chainLen, ih, Nat.add_comm]

theorem list_diff_self (l : List Nat) : l.diff l = [] := by
  induction l with
  | nil => rfl
  | cons a tl ih => rw [List.diff_cons, List.erase_cons_head]; exact ih

theorem waitLoop_drain (lastPid : Nat) :
    ∀ (l : List (Nat × Nat)) (pids : List Nat) (status : Status),
      (l.map Prod.fst).Nodup →
      (∀ p ∈ l.map Prod.fst, p ∈ pids) →
      waitLoop (l.map (fun pc => WaitEvent.exited pc.1 pc.2) ++ [WaitEvent.echild])
          pids lastPid status =
        some (pids.diff (l.map Prod.fst),
          l.foldl (fun s pc => if pc.1 = lastPid then Status.ofCode pc.2 else s) status)
  | [], pids, status, _, _ => by simp [waitLoop]
  | (p, c) :: tl, pids, status, hnd, hmem => by
      have hp : p ∈ pids := hmem p (by simp)
      have hnd2 : (tl.map Prod.fst).Nodup := (List.nodup_cons.mp (by simpa using hnd)).2
      have hpnotin : p ∉ tl.map Prod.fst := (List.nodup_cons.mp (by simpa using hnd)).1
      have hmem2 : ∀ q ∈ tl.map Prod.fst, q ∈ pids.erase p := by
        intro q hq
        have hqp : q ≠ p := fun h => hpnotin (h ▸ hq)
        exact (List.mem_erase_of_ne hqp).mpr (hmem q (by simp [hq]))
      have ih := waitLoop_drain lastPid tl (pids.erase p)
        (if p = lastPid then Status.ofCode c else status) hnd2 hmem2
      simp only [List.map_cons, List.cons_append, waitLoop, hp, if_pos, List.foldl_cons,
        List.append_eq]
      rw [ih, List.diff_cons]

theorem statusFold_absent (lastPid : Nat) :
    ∀ (l : List (Nat × Nat)) (s : Status), lastPid ∉ l.map Prod.fst →
      l.foldl (fun s pc => if pc.1 = lastPid then Status.ofCode pc.2 else s) s = s := by
  intro l
  induction l with
  | nil => intro s _; rfl
  | cons hd tl ih =>
      intro s hnot
      have h1 : hd.1 ≠ lastPid := by
        intro h; exact hnot (by simp [← h])
      simp only [List.foldl_cons, if_neg h1]
      exact ih s (fun h => hnot (by simp [h]))

theorem statusFold_unique (lastPid : Nat) (c : Nat) :
    ∀ (l : List (Nat × Nat)) (s : Status), (lastPid, c) ∈ l → (l.map Prod.fst).Nodup →
      l.foldl (fun s pc => if pc.1 = lastPid then Status.ofCode pc.2 else s) s =
        Status.ofCode c := by
  intro l
  induction l with
  | nil => intro s h _; simp at h
  | cons hd tl ih =>
      intro s hmem hnd
      have hnotin : hd.1 ∉ tl.map Prod.fst := (List.nodup_cons.mp (by simpa using hnd)).1
      rcases List.mem_cons.mp hmem with heq | htl
      · have h1 : hd.1 = lastPid := by rw [← heq]
        have h2 : hd.2 = c := by rw [← heq]
        simp only [List.foldl_cons, if_pos h1, h2]
        exact statusFold_absent lastPid tl _ (h1 ▸ hnotin)
      · have h1 : hd.1 ≠ lastPid := by
          intro h
          exact hnotin (h ▸ (by simpa using List.mem_map_of_mem Prod.fst htl))
        simp only [List.foldl_cons, if_neg h1]
        exact ih s htl (List.nodup_cons.mp (by simpa using hnd)).2

/-- Claim C2: for a pipeline of `n ≥ 1` commands whose forked children
get distinct pids, if the wait loop observes each child exit exactly
once (in any order) and then `ECHILD`, it terminates with every one of
the `n` children reaped — the PID set ends empty, so the
`assert!(pids.is_empty())` passes — and the recorded pipeline status is
`Status::from` of the exit code of the last (nth) child. -/
theorem pipeline_reaps_all_status_last (cmd : ExpandedCommand) (supply : Nat → Nat)
    (l : List (Nat × Nat)) (c : Nat)
    (hnodup : ((spawnChildren supply 0 cmd).1).Nodup)
    (hperm : (l.map Prod.fst).Perm (spawnChildren supply 0 cmd).1)
    (hlast : ((spawnChildren supply 0 cmd).2, c) ∈ l) :
    executePipeline supply
        (l.map (fun pc => WaitEvent.exited pc.1 pc.2) ++ [WaitEvent.echild]) cmd =
      some (Status.ofCode c) ∧
    l.length = cmd.chainLen := by
  have hndl : (l.map Prod.fst).Nodup := hperm.nodup_iff.mpr hnodup
  have hmem : ∀ p ∈ l.map Prod.fst, p ∈ (spawnChildren supply 0 cmd).1 :=
    fun p hp => hperm.mem_iff.mp hp
  have hdrain := waitLoop_drain (spawnChildren supply 0 cmd).2 l
    (spawnChildren supply 0 cmd).1 .success hndl hmem
  have hdiff : ((spawnChildren supply 0 cmd).1).diff (l.map Prod.fst) = [] := by
    rw [hperm.diff_left (spawnChildren supply 0 cmd).1]
    exact list_diff_self _
  have hfold := statusFold_unique (spawnChildren supply 0 cmd).2 c l .success hlast hndl
  constructor
  · rw [executePipeline, hdrain, hdiff, hfold]
    rfl
  · calc l.length = (l.map Prod.fst).length := by simp
      _ = ((spawnChildren supply 0 cmd).1).length := hperm.length_eq
      _ = cmd.chainLen := spawnChildren_length supply cmd 0

/-- Witness for C2: the two-command pipeline with pids 0 and 1, where
child 0 exits 0 after child 1 exits 3: both are reaped and the status is
`Status::from(3)` (failure). -/
theorem pipeline_reaps_all_status_last_witness :
    executePipeline (fun i => i)
        ([(1, 3), (0, 0)].map (fun pc => WaitEvent.exited pc.1 pc.2) ++ [WaitEvent.echild])
        (.mk [97] [] [] [] (some (.mk [98] [] [] [] none))) =
      some (Status.ofCode 3) ∧
    [(1, 3), (0, 0)].length =
      (ExpandedCommand.mk [97] [] [] [] (some (.mk [98] [] [] [] none))).chainLen := by
  exact pipeline_reaps_all_status_last
    (.mk [97] [] [] [] (some (.mk [98] [] [] [] none))) (fun i => i)
    [(1, 3), (0, 0)] 3 (by decide) (by decide) (by decide)

theorem consumeQuotedWord_ok_kind (q : Byte) (bs : List Byte) (k : Kind) (r : List Byte)
    (h : consumeQuotedWord q bs = .ok (k, r)) : ∃ w, k = Kind.word w := by
  simp only [consumeQuotedWord] at h
  split at h
  · cases h
  · cases h
    exact ⟨_, rfl⟩

theorem except_map_ne_ok_none {α : Type} (e : Except LexErr α)
    (g : α → Kind × List Byte × Bool) :
    e.map (fun x => some (g x)) ≠ .ok none := by
  cases e <;> simp [Except.map]

theorem except_map_ok_some {α : Type} (e : Except LexErr α)
    (g : α → Kind × List Byte × Bool) (k : Kind) (b2 : List Byte) (p2 : Bool)
    (h : e.map (fun x => some (g x)) = .ok (some (k, b2, p2))) :
    ∃ a, e = .ok a ∧ g a = (k, b2, p2) := by
  cases e with
  | error e => simp [Except.map] at h
  | ok a =>
      refine ⟨a, rfl, ?_⟩
      simpa [Except.map] using h

theorem scan_ok_none_joint (f : Nat) :
    (∀ bytes buf last, scan f bytes buf last = .ok none →
      last = none ∨ last = some Kind.semi) ∧
    (∀ b bs buf last, scanCommon f b bs buf last = .ok none →
      last = none ∨ last = some Kind.semi) := by
  induction f with
  | zero =>
      constructor
      · intro bytes buf last h; simp [scan] at h
      · intro b bs buf last h; simp [scanCommon] at h
  | succ f ih =>
      constructor
      · intro bytes buf last h
        match bytes with
        | [] =>
            simp only [scan] at h
            split at h
            · split at h
              · exact Or.inr rfl
              · exact Or.inl rfl
              · cases h
            · cases h
        | b :: bs =>
            simp only [scan] at h
            split at h
            · split at h
              · exact absurd h (except_map_ne_ok_none _ _)
              · exact absurd h (except_map_ne_ok_none _ _)
              · cases h
              · split at h <;> cases h
              · cases h
              · exact absurd h (except_map_ne_ok_none _ _)
              · exact absurd h (except_map_ne_ok_none _ _)
              · split at h
                · exact absurd h (except_map_ne_ok_none _ _)
                · cases h
                · exact ih.1 _ _ _ h
              · split at h
                · exact absurd h (except_map_ne_ok_none _ _)
                · cases h
                · exact ih.1 _ _ _ h
              · split at h
                · exact absurd h (except_map_ne_ok_none _ _)
                · cases h
                · exact ih.1 _ _ _ h
              · exact ih.2 _ _ _ _ h
            · exact ih.2 _ _ _ _ h
      · intro b bs buf last h
        simp only [scanCommon] at h
        split at h
        · split at h
          · split at h
            · exact Or.inl rfl
            · cases h
          · cases h
        · split at h
          · split at h
            · exact ih.1 _ _ _ h
            · cases h
          · exact ih.1 _ _ _ h

theorem scan_first_not_semi_joint (f : Nat) :
    (∀ bytes buf k b2 p2, scan f bytes buf none = .ok (some (k, b2, p2)) →
      k ≠ Kind.semi) ∧
    (∀ b bs buf k b2 p2, scanCommon f b bs buf none = .ok (some (k, b2, p2)) →
      k ≠ Kind.semi) := by
  induction f with
  | zero =>
      constructor
      · intro bytes buf k b2 p2 h; simp [scan] at h
      · intro b bs buf k b2 p2 h; simp [scanCommon] at h
  | succ f ih =>
      constructor
      · intro bytes buf k b2 p2 h
        match bytes with
        | [] =>
            simp only [scan] at h
            split at h
            · exact absurd h (by simp)
            · cases h
              simp
        | b :: bs =>
            simp only [scan] at h
            split at h
            · split at h
              · obtain ⟨a, ha, hg⟩ := except_map_ok_some _ _ _ _ _ h
                obtain ⟨w, hw⟩ := consumeQuotedWord_ok_kind _ _ a.1 a.2
                  (by rw [ha])
                cases hg
                rw [hw]
                simp
              · obtain ⟨a, ha, hg⟩ := except_map_ok_some _ _ _ _ _ h
                obtain ⟨w, hw⟩ := consumeQuotedWord_ok_kind _ _ a.1 a.2
                  (by rw [ha])
                cases hg
                rw [hw]
                simp
              · cases h; simp
              · rw [show shouldInsertSemi none = false from rfl] at h
                rw [if_neg (by simp)] at h
                cases h; simp
              · cases h; simp
              · obtain ⟨a, ha, hg⟩ := except_map_ok_some _ _ _ _ _ h
                cases hg; simp
              · obtain ⟨a, ha, hg⟩ := except_map_ok_some _ _ _ _ _ h
                cases hg; simp
              · split at h
                · obtain ⟨a, ha, hg⟩ := except_map_ok_some _ _ _ _ _ h
                  cases hg; simp
                · cases h; simp
                · exact ih.1 _ _ _ _ _ h
              · split at h
                · obtain ⟨a, ha, hg⟩ := except_map_ok_some _ _ _ _ _ h
                  cases hg; simp
                · cases h; simp
                · exact ih.1 _ _ _ _ _ h
              · split at h
                · obtain ⟨a, ha, hg⟩ := except_map_ok_some _ _ _ _ _ h
                  cases hg; simp
                · cases h; simp
                · exact ih.1 _ _ _ _ _ h
              · exact ih.2 _ _ _ _ _ _ h
            · exact ih.2 _ _ _ _ _ _ h
      · intro b bs buf k b2 p2 h
        simp only [scanCommon] at h
        split at h
        · split at h
          · exact ih.1 _ _ _ _ _ h
          · cases h; simp
        · split at h
          · split at h
            · exact ih.1 _ _ _ _ _ h
            · cases h; simp
          · exact ih.1 _ _ _ _ _ h

theorem lexNext_last (f : Nat) (st : LexState) (k : Kind) (st2 : LexState)
    (h : lexNext f st = .ok (some (k, st2))) : st2.last = some k := by
  match f with
  | 0 => simp [lexNext] at h
  | f + 1 =>
      simp only [lexNext] at h
      split at h
      · cases h; rfl
      · split at h
        · cases h
        · cases h
        · cases h; rfl

theorem lexNext_ok_none_last (f : Nat) (st : LexState)
    (h : lexNext f st = .ok none) : st.last = none ∨ st.last = some Kind.semi := by
  match f with
  | 0 => simp [lexNext] at h
  | f + 1 =>
      simp only [lexNext] at h
      split at h
      · cases h
      · split at h
        · cases h
        · exact (scan_ok_none_joint f).1 _ _ _ (by assumption)
        · cases h

theorem lexNext_first_not_semi (f : Nat) (st : LexState) (k : Kind) (st2 : LexState)
    (hpend : st.pending = false) (hlast : st.last = none)
    (h : lexNext f st = .ok (some (k, st2))) : k ≠ Kind.semi := by
  match f with
  | 0 => simp [lexNext] at h
  | f + 1 =>
      simp only [lexNext, hpend, Bool.false_eq_true, if_neg] at h
      rcases hscan : scan f st.bytes [] st.last with e | o <;> rw [hscan] at h
      · cases h
      · match o, h with
        | some (k2, b2, p2), h =>
            cases h
            rw [hlast] at hscan
            exact (scan_first_not_semi_joint f).1 _ _ _ _ _ hscan

theorem lexAll_ok_nil (f : Nat) (st : LexState)
    (h : lexAll f st = some (.ok [])) : lexNext f st = .ok none := by
  match f with
  | 0 => simp [lexAll] at h
  | f + 1 =>
      rcases hn : lexNext (f + 1) st with e | o
      · simp [lexAll, hn] at h
      · match o with
        | none => rfl
        | some (k, st2) =>
            simp only [lexAll, hn] at h
            rcases ha : lexAll f st2 with _ | r
            · simp [ha] at h
            · match r with
              | .error e => simp [ha] at h
              | .ok ks => simp [ha] at h

theorem lexAll_ends_semi (f : Nat) :
    ∀ (st : LexState) (ts : List Kind), lexAll f st = some (.ok ts) → ts ≠ [] →
      ts.getLast? = some Kind.semi := by
  induction f with
  | zero => intro st ts h _; simp [lexAll] at h
  | succ f ih =>
      intro st ts h hne
      rcases hn : lexNext (f + 1) st with e | o
      · simp [lexAll, hn] at h
      · match o with
        | none =>
            simp only [lexAll, hn] at h
            cases h
            exact absurd rfl hne
        | some (k, st2) =>
            simp only [lexAll, hn] at h
            rcases ha : lexAll f st2 with _ | r
            · simp [ha] at h
            · match r with
              | .error e => simp [ha] at h
              | .ok ks =>
                  simp only [ha, Option.some.injEq, Except.ok.injEq] at h
                  subst h
                  match ks, ha with
                  | [], ha =>
                      have hnone := lexAll_ok_nil f st2 ha
                      have hlast := lexNext_last (f + 1) st k st2 hn
                      rcases lexNext_ok_none_last f st2 hnone with h1 | h1
                      · rw [hlast] at h1; cases h1
                      · rw [hlast] at h1
                        cases h1
                        rfl
                  | k2 :: ks2, ha =>
                      have := ih st2 (k2 :: ks2) ha (by simp)
                      rw [List.getLast?_cons_cons]
                      exact this

/-- Claim C4: on every input the lexer finishes successfully (with any
fuel), the emitted token sequence ends with `Semi` iff it contains at
least one non-`Semi` (non-terminator) token: leading terminators emit
nothing, so the first emitted token is never a `Semi`, and the synthetic
end-of-input rule guarantees a final `Semi` whenever anything was
emitted. -/
theorem lexer_ends_with_semi_iff (input : List Byte) (f : Nat) (ts : List Kind)
    (h : lexAll f (initLexState input) = some (.ok ts)) :
    ts.getLast? = some Kind.semi ↔ ∃ k ∈ ts, k ≠ Kind.semi := by
  constructor
  · intro hend
    match ts, hend with
    | k :: ts2, hend =>
        refine ⟨k, by simp, ?_⟩
        match f, h with
        | f + 1, h => ?_
        rcases hn : lexNext (f + 1) (initLexState input) with e | o
        · simp [lexAll, hn] at h
        · match o with
          | none => simp [lexAll, hn] at h
          | some (k2, st2) =>
              simp only [lexAll, hn] at h
              rcases ha : lexAll f st2 with _ | r
              · simp [ha] at h
              · match r with
                | .error e => simp [ha] at h
                | .ok ks =>
                    simp only [ha, Option.some.injEq, Except.ok.injEq,
                      List.cons.injEq] at h
                    obtain ⟨rfl, -⟩ := h
                    exact lexNext_first_not_semi (f + 1) (initLexState input)
                      k2 st2 rfl rfl hn
  · intro hex
    obtain ⟨k, hk, _⟩ := hex
    exact lexAll_ends_semi f (initLexState input) ts h
      (by intro h0; rw [h0] at hk; simp at hk)

/-- Witness for C4: lexing the single word `x` yields `[Word x, Semi]`,
which ends in `Semi` and contains the non-terminator `Word x`. -/
theorem lexer_ends_with_semi_iff_witness :
    (lexAll 24 (initLexState [120]) = some (.ok [.word ⟨[120], none⟩, .semi])) ∧
    (([Kind.word ⟨[120], none⟩, Kind.semi].getLast? = some Kind.semi) ↔
      ∃ k ∈ [Kind.word ⟨[120], none⟩, Kind.semi], k ≠ Kind.semi) := by
  refine ⟨by decide, ?_⟩
  exact lexer_ends_with_semi_iff [120] 24 [.word ⟨[120], none⟩, .semi] (by decide)

end Msh
